import Mathlib

/-!
Verification development for the dankgraph succinct variation graph core
(vgteam/dgraph).  The public interface is declared in src/graph.hpp; the
bodies present in that header (for_each_edge and the void-iteratee
templates for follow_edges / for_each_handle) are embedded directly from
the source.  Operations whose bodies are not part of the sources given
(flip, get_sequence, edge_handle, follow_edges, divide_handle,
destroy_handle, create_path_handle, ...) are modelled from the
specification, as marked in their doc comments.
-/

namespace dankgraph

/-- DNA alphabet {A,C,G,T,N}, case preserved (lowercase constructors are
the lowercase letters). -/
inductive Base : Type
  | A | C | G | T | N
  | a | c | g | t | n
deriving DecidableEq, Repr

/-- Modelled from the spec: complement maps A↔T, C↔G, N↔N with case
preserved. -/
def complement : Base → Base
  | Base.A => Base.T
  | Base.T => Base.A
  | Base.C => Base.G
  | Base.G => Base.C
  | Base.N => Base.N
  | Base.a => Base.t
  | Base.t => Base.a
  | Base.c => Base.g
  | Base.g => Base.c
  | Base.n => Base.n

/-- Modelled from the spec: the reverse complement of a DNA string. -/
def reverse_complement (s : List Base) : List Base :=
  (s.map complement).reverse

/-- A handle denotes a node id viewed in one of two orientations
(spec: a handle is equivalent to (id, reverse)). -/
structure handle_t : Type where
  nid : Nat
  is_rev : Bool
deriving DecidableEq, Repr

/-- An edge is represented by an ordered pair of handles
("the right side of first connects to the left side of second"). -/
abbrev edge_t := handle_t × handle_t

/-- Modelled from the spec: get_id returns the node identifier of a
handle (graph.hpp declares it; body not in the given sources). -/
def get_id (h : handle_t) : Nat := h.nid

/-- Modelled from the spec: get_is_reverse returns the orientation bit of
a handle. -/
def get_is_reverse (h : handle_t) : Bool := h.is_rev

/-- Modelled from the spec: flip toggles the orientation of a handle. -/
def flip (h : handle_t) : handle_t := ⟨h.nid, !h.is_rev⟩

/-- Modelled from the spec: forward normalizes a handle to the forward
orientation. -/
def forward (h : handle_t) : handle_t := ⟨h.nid, false⟩

/-- Modelled from the spec (section 4.2): the pair (a, b) is canonical iff
id(a) < id(b), or id(a) = id(b) and is_reverse(a) ≤ is_reverse(b). -/
def canonicalPair (a b : handle_t) : Bool :=
  decide (a.nid < b.nid) || (decide (a.nid = b.nid) && (!a.is_rev || b.is_rev))

/-- Modelled from the spec: edge_handle returns the canonical ordered
pair for the edge; a non-canonical pair is replaced by the equivalent
pair (flip right, flip left) (graph.hpp declares edge_handle; body not in
the given sources). -/
def edge_handle (l r : handle_t) : edge_t :=
  if canonicalPair l r then (l, r) else (flip r, flip l)

/-- One node of the graph: identifier, forward-strand sequence, and the
two adjacency lists of the edge store (spec section 4.4).  An entry
(i, b) of fwd_edges records an edge leaving this node's right side on the
forward strand and entering node i reversed iff b (the inversion bit);
rev_edges likewise records the edges leaving this node's left side,
i.e. the edges reachable going rightward from the reverse handle. -/
structure node_t : Type where
  nid : Nat
  seq : List Base
  fwd_edges : List (Nat × Bool)
  rev_edges : List (Nat × Bool)
deriving DecidableEq, Repr

/-- A named path: name plus its ordered steps (oriented node visits). -/
structure path_t : Type where
  name : String
  steps : List handle_t
deriving DecidableEq, Repr

/-- The graph: nodes in their internal stored order, and the embedded
paths in creation order. -/
structure graph_t : Type where
  nodes : List node_t
  paths : List path_t
deriving DecidableEq, Repr

/-- Modelled from the spec: has_node tests whether a node id is live. -/
def has_node (g : graph_t) (i : Nat) : Bool :=
  g.nodes.any (fun x => x.nid == i)

/-- node_size returns the number of nodes in the graph. -/
def node_size (g : graph_t) : Nat := g.nodes.length

/-- Modelled from the spec: get_sequence returns the node's sequence
presented in the handle's local forward orientation (reverse-complemented
when the handle is reversed). -/
def get_sequence (g : graph_t) (h : handle_t) : List Base :=
  match g.nodes.find? (fun x => x.nid == h.nid) with
  | none => []
  | some nd => if h.is_rev then reverse_complement nd.seq else nd.seq

/-- Modelled from the spec: get_length returns the length of a node's
sequence (orientation independent). -/
def get_length (g : graph_t) (h : handle_t) : Nat :=
  (get_sequence g h).length

/-- Modelled from the spec: the handles delivered by follow_edges, in
stored order.  Going rightward from a forward handle walks the node's
fwd_edges; going leftward walks rev_edges with each entry flipped (the
stored entry is the outward handle seen from the node's left side, so
the edge's left partner is its flip); a reversed handle exchanges the
two lists. -/
def followEdgesList (g : graph_t) (h : handle_t) (go_left : Bool) : List handle_t :=
  match g.nodes.find? (fun x => x.nid == h.nid) with
  | none => []
  | some nd =>
    match h.is_rev, go_left with
    | false, false => nd.fwd_edges.map (fun e => ⟨e.1, e.2⟩)
    | false, true => nd.rev_edges.map (fun e => flip ⟨e.1, e.2⟩)
    | true, false => nd.rev_edges.map (fun e => ⟨e.1, e.2⟩)
    | true, true => nd.fwd_edges.map (fun e => flip ⟨e.1, e.2⟩)

/-- Modelled from the spec: run a continue-or-stop iteratee (with
explicit threaded state) over a list of handles in order, stopping at
the first false and returning false, or returning true when exhausted. -/
def runFollow {σ : Type} (hs : List handle_t) (f : σ → handle_t → σ × Bool)
    (s : σ) : σ × Bool :=
  match hs with
  | [] => (s, true)
  | h :: rest =>
    let r := f s h
    if r.2 then runFollow rest f r.1 else (r.1, false)

/-- Modelled from the spec: follow_edges with a boolean-returning
iteratee (the callback closure's captured state is threaded explicitly). -/
def follow_edges {σ : Type} (g : graph_t) (h : handle_t) (go_left : Bool)
    (f : σ → handle_t → σ × Bool) (s : σ) : σ × Bool :=
  runFollow (followEdgesList g h go_left) f s

/-- The forward handles of the nodes in internal stored order. -/
def handlesList (g : graph_t) : List handle_t :=
  g.nodes.map (fun nd => ⟨nd.nid, false⟩)

/-- Modelled from the spec: serial for_each_handle with a
boolean-returning iteratee; visits every node in stored order in its
forward orientation and stops at the first false. -/
def for_each_handle {σ : Type} (g : graph_t) (f : σ → handle_t → σ × Bool)
    (s : σ) : σ × Bool :=
  runFollow (handlesList g) f s

/-- From graph.hpp lines 77-106: the void-iteratee follow_edges template
wraps the iteratee with a constant-true boolean return and calls the
boolean version. -/
def follow_edges_void {σ : Type} (g : graph_t) (h : handle_t) (go_left : Bool)
    (f : σ → handle_t → σ) (s : σ) : σ :=
  (follow_edges g h go_left (fun s x => (f s x, true)) s).1

/-- From graph.hpp lines 111-122: the void-iteratee for_each_handle
template wraps the iteratee with a constant-true boolean return and
calls the boolean version. -/
def for_each_handle_void {σ : Type} (g : graph_t) (f : σ → handle_t → σ)
    (s : σ) : σ :=
  (for_each_handle g (fun s x => (f s x, true)) s).1

/-- From graph.hpp lines 124-146: the body of the per-handle lambda of
for_each_edge.  keep_going starts true; the rightward follow_edges
delivers edge_handle(handle, next) when id(handle) ≤ id(next); if
keep_going survives, the leftward follow_edges delivers
edge_handle(prev, handle) when id(handle) < id(prev) or (the ids are
equal and prev is not reversed).  The iteratee state is threaded
together with keep_going. -/
def forEachEdgeAtHandle {σ : Type} (g : graph_t) (f : σ → edge_t → σ × Bool)
    (h : handle_t) (s : σ) : σ :=
  let p1 := runFollow (followEdgesList g h false)
    (fun p n =>
      if h.nid ≤ n.nid then
        let r := f p.1 (edge_handle h n)
        ((r.1, r.2), r.2)
      else (p, p.2)) (s, true)
  if p1.1.2 then
    (runFollow (followEdgesList g h true)
      (fun p prev =>
        if h.nid < prev.nid ∨ (h.nid = prev.nid ∧ prev.is_rev = false) then
          let r := f p.1 (edge_handle prev h)
          ((r.1, r.2), r.2)
        else (p, p.2)) p1.1).1.1
  else p1.1.1

/-- From graph.hpp lines 124-146: for_each_edge runs the per-handle body
over every node through the void-iteratee for_each_handle template (the
C++ lambda returns void), so the outer node loop never stops. -/
def for_each_edge {σ : Type} (g : graph_t) (f : σ → edge_t → σ × Bool)
    (s : σ) : σ :=
  for_each_handle_void g (fun s h => forEachEdgeAtHandle g f h s) s

/-- Edge iteratee recording every delivered edge and always continuing. -/
def collectIter : List edge_t → edge_t → List edge_t × Bool :=
  fun acc e => (acc ++ [e], true)

/-- Edge iteratee recording every delivered edge and requesting a stop at
the first delivery. -/
def stopIter : List edge_t → edge_t → List edge_t × Bool :=
  fun acc e => (acc ++ [e], false)

/-- The full enumeration trace of for_each_edge with an always-continue
collector. -/
def forEachEdgeList (g : graph_t) : List edge_t :=
  for_each_edge g collectIter []

/-- The edges for_each_edge emits while visiting one handle, as a
filtered view of the two adjacency scans. -/
def nodeEdgeList (g : graph_t) (h : handle_t) : List edge_t :=
  (followEdgesList g h false).filterMap
      (fun n => if h.nid ≤ n.nid then some (edge_handle h n) else none)
  ++ (followEdgesList g h true).filterMap
      (fun p => if h.nid < p.nid ∨ (h.nid = p.nid ∧ p.is_rev = false)
        then some (edge_handle p h) else none)

/-- One node (id 1, sequence A) carrying a plain (non-reversing)
self-loop: the edge (h, h) joining the node's right side to its left
side.  The fwd adjacency stores the successor handle h; the rev
adjacency stores the outward handle flip h seen from the left side. -/
def selfLoopGraph : graph_t :=
  ⟨[⟨1, [Base.A], [(1, false)], [(1, true)]⟩], []⟩

/-- One node (id 1, sequence A) carrying a reversing self-loop on its
left side: the edge (flip h, h).  Both endpoints are the left side, so
only the rev adjacency stores it, as the outward handle h. -/
def revLoopGraph : graph_t :=
  ⟨[⟨1, [Base.A], [], [(1, false)]⟩], []⟩

/-- Two nodes: an edge from node 1 to node 2 plus a plain self-loop on
node 2 (exhibits the early-stop failure of for_each_edge). -/
def twoNodeGraph : graph_t :=
  ⟨[⟨1, [Base.A], [(2, false)], []⟩,
    ⟨2, [Base.C], [(2, false)], [(1, true), (2, true)]⟩], []⟩

/-- Modelled from the spec (section 4.3): destroy_handle removes the
node from the public topology and destroys its incident edges.  The
tombstoned node is modelled as removed from the node list, and every
adjacency entry naming it is erased from the other nodes. -/
def destroy_handle (g : graph_t) (h : handle_t) : graph_t :=
  ⟨(g.nodes.filter (fun x => !(x.nid == h.nid))).map
      (fun x =>
        { x with
          fwd_edges := x.fwd_edges.filter (fun e => !(e.1 == h.nid)),
          rev_edges := x.rev_edges.filter (fun e => !(e.1 == h.nid)) }),
    g.paths⟩

/-- Error kinds of the path-creation interface (spec section 7). -/
inductive GraphError : Type
  | DuplicatePath
  | InvalidName
deriving DecidableEq, Repr

/-- Modelled from the spec: has_path tests whether a path name exists. -/
def has_path (g : graph_t) (name : String) : Bool :=
  g.paths.any (fun p => p.name == name)

/-- Modelled from the spec: a path name is invalid when it is empty or
contains the delimiter byte 0x24, the dollar sign. -/
def invalid_path_name (name : String) : Bool :=
  name.data.isEmpty || name.data.contains '$'

/-- Modelled from the spec (section 4.7): create_path_handle fails with
InvalidName on an empty name or one containing the delimiter, fails with
DuplicatePath when the name already exists, and otherwise appends a new
empty path and returns its handle (the index in creation order). -/
def create_path_handle (g : graph_t) (name : String) :
    Except GraphError (graph_t × Nat) :=
  if invalid_path_name name then Except.error GraphError.InvalidName
  else if has_path g name then Except.error GraphError.DuplicatePath
  else Except.ok (⟨g.nodes, g.paths ++ [⟨name, []⟩]⟩, g.paths.length)

/-- Modelled from the spec: get_path_name returns the name stored for a
path handle. -/
def get_path_name (g : graph_t) (p : Nat) : String :=
  ((g.paths[p]?).map path_t.name).getD ""

/-- Modelled from the spec: a path is empty when it has no steps. -/
def path_is_empty (g : graph_t) (p : Nat) : Bool :=
  ((g.paths[p]?).map (fun x => x.steps.isEmpty)).getD true

/-- The largest node id present (0 on the empty graph); create_handle
and divide_handle take fresh ids above it. -/
def maxNodeId (g : graph_t) : Nat :=
  g.nodes.foldr (fun nd m => max nd.nid m) 0

/-- Modelled from the spec: split a sequence at the given ascending
absolute offsets; prev is the offset already consumed, so each step cuts
the chunk up to the next offset and recurses on the remainder. -/
def splitSeqFrom (prev : Nat) (offs : List Nat) (s : List Base) :
    List (List Base) :=
  match offs with
  | [] => [s]
  | o :: rest => s.take (o - prev) :: splitSeqFrom o rest (s.drop (o - prev))

/-- Modelled from the spec: split a sequence at the given ascending
offsets. -/
def splitSeq (offs : List Nat) (s : List Base) : List (List Base) :=
  splitSeqFrom 0 offs s

/-- Fresh piece nodes with consecutive ids starting at i0 and the given
forward-strand sequences.  The spec's node-division section fixes the
sequence and path behavior of a division; edge rewiring is not specified
there and the piece nodes are created with empty adjacency. -/
def mkNodes (i0 : Nat) (ps : List (List Base)) : List node_t :=
  match ps with
  | [] => []
  | p :: rest => ⟨i0, p, [], []⟩ :: mkNodes (i0 + 1) rest

/-- Modelled from the spec (sections 4.3 and 4.5, and the divide_handle
declaration of graph.hpp): split the node underlying the handle at the
given offsets, measured in the handle's orientation.  The pieces keep
the original node's local forward orientation and receive fresh ids
appended after the surviving nodes; the returned handles come in the
order and orientation induced by the input handle (a reversed input
yields the pieces in reversed order, each handle flipped). -/
def divide_handle (g : graph_t) (h : handle_t) (offsets : List Nat) :
    graph_t × List handle_t :=
  match g.nodes.find? (fun x => x.nid == h.nid) with
  | none => (g, [])
  | some nd =>
    let oriented := if h.is_rev then reverse_complement nd.seq else nd.seq
    let pieces := splitSeq offsets oriented
    let fwdPieces :=
      if h.is_rev then (pieces.map reverse_complement).reverse else pieces
    let m := maxNodeId g
    let g2 : graph_t :=
      ⟨(g.nodes.filter (fun x => !(x.nid == h.nid))) ++ mkNodes (m + 1) fwdPieces,
        g.paths⟩
    let fwdHandles := (List.range fwdPieces.length).map
      (fun i => handle_t.mk (m + 1 + i) false)
    let ret := if h.is_rev then fwdHandles.reverse.map flip else fwdHandles
    (g2, ret)

/-- A single node with sequence GATTACA and id 1 (witness graph for
divide_handle). -/
def gattacaGraph : graph_t :=
  ⟨[⟨1, [Base.G, Base.A, Base.T, Base.T, Base.A, Base.C, Base.A], [], []⟩], []⟩

end dankgraph

namespace dankgraph

theorem complement_complement (b : Base) : complement (complement b) = b := by
  cases b <;> rfl

theorem reverse_complement_reverse_complement (s : List Base) :
    reverse_complement (reverse_complement s) = s := by
  unfold reverse_complement
  rw [List.map_reverse, List.reverse_reverse, List.map_map]
  have hcc : complement ∘ complement = id := funext complement_complement
  rw [hcc, List.map_id]

theorem reverse_complement_append (s t : List Base) :
    reverse_complement (s ++ t) = reverse_complement t ++ reverse_complement s := by
  unfold reverse_complement
  rw [List.map_append, List.reverse_append]

theorem reverse_complement_length (s : List Base) :
    (reverse_complement s).length = s.length := by
  unfold reverse_complement
  rw [List.length_reverse, List.length_map]

theorem flip_nid (h : handle_t) : (flip h).nid = h.nid := rfl

theorem get_sequence_flip (g : graph_t) (h : handle_t) :
    get_sequence g (flip h) = reverse_complement (get_sequence g h) := by
  unfold get_sequence
  have hpred : (fun x : node_t => x.nid == (flip h).nid)
      = (fun x : node_t => x.nid == h.nid) := rfl
  rw [hpred]
  cases hfind : g.nodes.find? (fun x => x.nid == h.nid) with
  | none => rfl
  | some nd =>
    cases hrev : h.is_rev with
    | false => simp [flip, hrev]
    | true => simp [flip, hrev, reverse_complement_reverse_complement]

/-- Claim C7: for every handle h, get_id (flip h) = get_id h,
get_is_reverse (flip h) = not (get_is_reverse h), and flip (flip h) = h:
flip is an involution that keeps the node identifier and toggles the
orientation bit. -/
theorem c7_flip_involution (h : handle_t) :
    get_id (flip h) = get_id h
    ∧ get_is_reverse (flip h) = !get_is_reverse h
    ∧ flip (flip h) = h := by
  obtain ⟨i, r⟩ := h
  refine ⟨rfl, rfl, ?_⟩
  cases r <;> rfl

/-- Claim C8: reading a handle in the flipped orientation yields the
reverse complement of its sequence (complement maps A-T, C-G, N-N with
case preserved), and reverse_complement is an involution on all DNA
strings. -/
theorem c8_sequence_flip_reverse_complement :
    (∀ (g : graph_t) (h : handle_t),
      get_sequence g (flip h) = reverse_complement (get_sequence g h))
    ∧ (∀ s : List Base, reverse_complement (reverse_complement s) = s) :=
  ⟨get_sequence_flip, reverse_complement_reverse_complement⟩

/-- Claim C2 counterexample: for the ordered pair (h, h) on node 1 in
forward orientation, edge_handle (h, h) differs from
edge_handle (flip h, flip h): both same-orientation self-pairs are
fixed by the canonicalization rule, so the two orderings of this edge do
not canonicalize to the same pair. -/
theorem c2_edge_handle_flip_counterexample :
    ¬ (edge_handle ⟨1, false⟩ ⟨1, false⟩
        = edge_handle (flip ⟨1, false⟩) (flip ⟨1, false⟩)) := by
  decide

/-- Claim C2 (amended): edge_handle follows the spec's canonicalization
rule, and for every pair (l, r) that is not a same-orientation self-pair
(id(l) = id(r) and is_reverse(l) = is_reverse(r)), the two orderings of
the edge canonicalize identically: edge_handle l r =
edge_handle (flip r) (flip l). -/
theorem c2_edge_handle_canonical (l r : handle_t)
    (hdeg : ¬ (l.nid = r.nid ∧ l.is_rev = r.is_rev)) :
    (canonicalPair l r = true → edge_handle l r = (l, r))
    ∧ (canonicalPair l r = false → edge_handle l r = (flip r, flip l))
    ∧ edge_handle l r = edge_handle (flip r) (flip l) := by
  obtain ⟨ln, lr⟩ := l
  obtain ⟨rn, rr⟩ := r
  refine ⟨fun hc => by simp [edge_handle, hc], fun hc => by simp [edge_handle, hc], ?_⟩
  simp only [not_and] at hdeg
  rcases Nat.lt_trichotomy ln rn with hlt | heq | hgt
  · have hc : canonicalPair ⟨ln, lr⟩ ⟨rn, rr⟩ = true := by
      simp [canonicalPair, hlt]
    have hc2 : canonicalPair (flip ⟨rn, rr⟩) (flip ⟨ln, lr⟩) = false := by
      simp [canonicalPair, flip, Nat.lt_asymm hlt, Nat.ne_of_gt hlt]
    simp only [flip] at hc2
    simp [edge_handle, hc, hc2, flip]
  · subst heq
    have hrr : ¬ lr = rr := hdeg rfl
    cases lr <;> cases rr <;> simp_all <;> simp [edge_handle, canonicalPair, flip]
  · have hc : canonicalPair ⟨ln, lr⟩ ⟨rn, rr⟩ = false := by
      simp [canonicalPair, Nat.lt_asymm hgt, Nat.ne_of_gt hgt]
    have hc2 : canonicalPair (flip ⟨rn, rr⟩) (flip ⟨ln, lr⟩) = true := by
      simp [canonicalPair, flip, hgt]
    simp only [flip] at hc2
    simp [edge_handle, hc, hc2, flip]

/-- Claim C2 witness: the amended identity applied to the concrete
non-degenerate pair (node 1 forward, node 2 forward). -/
theorem c2_edge_handle_canonical_witness :
    ¬ ((⟨1, false⟩ : handle_t).nid = (⟨2, false⟩ : handle_t).nid
        ∧ (⟨1, false⟩ : handle_t).is_rev = (⟨2, false⟩ : handle_t).is_rev)
    ∧ edge_handle ⟨1, false⟩ ⟨2, false⟩
        = edge_handle (flip ⟨2, false⟩) (flip ⟨1, false⟩) :=
  ⟨by decide, (c2_edge_handle_canonical ⟨1, false⟩ ⟨2, false⟩ (by decide)).2.2⟩

theorem runFollow_const_true {σ : Type} (f : σ → handle_t → σ) :
    ∀ (hs : List handle_t) (s : σ),
      runFollow hs (fun s x => (f s x, true)) s = (List.foldl f s hs, true) := by
  intro hs
  induction hs with
  | nil => intro s; rfl
  | cons h rest ih => intro s; simp [runFollow, List.foldl, ih]

/-- Claim C9: the void-returning iteratee templates behave as the
boolean-returning versions with an always-true iteratee: the boolean
runner with a constant-true wrapper folds the iteratee over every
neighbor (resp. every stored handle) in order and never stops early, and
the void templates produce exactly that fold. -/
theorem c9_void_iteratee_equivalence {σ τ : Type} (g : graph_t) (h : handle_t)
    (go_left : Bool) (f : σ → handle_t → σ) (s : σ)
    (f2 : τ → handle_t → τ) (t : τ) :
    follow_edges g h go_left (fun s x => (f s x, true)) s
      = (List.foldl f s (followEdgesList g h go_left), true)
    ∧ follow_edges_void g h go_left f s
      = List.foldl f s (followEdgesList g h go_left)
    ∧ for_each_handle g (fun t x => (f2 t x, true)) t
      = (List.foldl f2 t (handlesList g), true)
    ∧ for_each_handle_void g f2 t = List.foldl f2 t (handlesList g) := by
  refine ⟨?_, ?_, ?_, ?_⟩
  · exact runFollow_const_true f (followEdgesList g h go_left) s
  · unfold follow_edges_void follow_edges
    rw [runFollow_const_true]
  · exact runFollow_const_true f2 (handlesList g) t
  · unfold for_each_handle_void for_each_handle
    rw [runFollow_const_true]

/-- Claim C1 failing input: on a plain (non-reversing) self-loop,
for_each_edge delivers the same edge twice (once from the rightward scan
and once from the leftward scan, whose filter accepts a non-reversed
prev at equal ids); and on a left-side reversing self-loop, which
follow_edges does report, for_each_edge delivers nothing at all. -/
theorem c1_for_each_edge_self_loop_bug :
    forEachEdgeList selfLoopGraph
      = [(⟨1, false⟩, ⟨1, false⟩), (⟨1, false⟩, ⟨1, false⟩)]
    ∧ followEdgesList revLoopGraph ⟨1, false⟩ true = [⟨1, true⟩]
    ∧ forEachEdgeList revLoopGraph = [] := by
  decide

/-- Claim C5 failing input: with an iteratee that returns false at the
very first delivered edge, for_each_edge still delivers the self-loop of
node 2 afterwards: the per-handle lambda returns void, so the outer
for_each_handle never stops, and keep_going is re-initialized at the
next node. -/
theorem c5_for_each_edge_no_early_stop :
    for_each_edge twoNodeGraph stopIter []
      = [(⟨1, false⟩, ⟨2, false⟩), (⟨2, false⟩, ⟨2, false⟩)] := by
  decide

theorem runFollow_filter_collect (c : handle_t → Prop) [DecidablePred c]
    (em : handle_t → edge_t) :
    ∀ (ns : List handle_t) (acc : List edge_t),
      runFollow ns
        (fun p n =>
          if c n then ((p.1 ++ [em n], true), true) else (p, p.2)) (acc, true)
      = ((acc ++ ns.filterMap (fun n => if c n then some (em n) else none),
          true), true) := by
  intro ns
  induction ns with
  | nil => intro acc; simp [runFollow]
  | cons n rest ih =>
    intro acc
    by_cases hc : c n
    · simp [runFollow, hc, List.filterMap_cons, ih]
    · simp [runFollow, hc, List.filterMap_cons, ih]

theorem forEachEdgeAtHandle_collect (g : graph_t) (h : handle_t)
    (acc : List edge_t) :
    forEachEdgeAtHandle g collectIter h acc = acc ++ nodeEdgeList g h := by
  unfold forEachEdgeAtHandle nodeEdgeList
  simp only [collectIter]
  rw [runFollow_filter_collect (fun n => h.nid ≤ n.nid) (fun n => edge_handle h n)]
  rw [runFollow_filter_collect
    (fun p => h.nid < p.nid ∨ (h.nid = p.nid ∧ p.is_rev = false))
    (fun p => edge_handle p h)]
  simp [List.append_assoc]

theorem foldl_append_flatten {α β : Type} (f : α → List β) :
    ∀ (l : List α) (acc : List β),
      List.foldl (fun a x => a ++ f x) acc l = acc ++ (l.map f).flatten := by
  intro l
  induction l with
  | nil => intro acc; simp
  | cons x rest ih => intro acc; simp [List.foldl, ih]

theorem forEachEdgeList_eq (g : graph_t) :
    forEachEdgeList g = ((handlesList g).map (nodeEdgeList g)).flatten := by
  unfold forEachEdgeList for_each_edge for_each_handle_void for_each_handle
  rw [runFollow_const_true]
  have hfun : (fun (s : List edge_t) (h : handle_t) =>
      forEachEdgeAtHandle g collectIter h s)
      = fun s h => s ++ nodeEdgeList g h :=
    funext fun s => funext fun h => forEachEdgeAtHandle_collect g h s
  rw [hfun, foldl_append_flatten]
  simp

theorem edge_handle_idem (l r : handle_t) :
    edge_handle (edge_handle l r).1 (edge_handle l r).2 = edge_handle l r := by
  by_cases hc : canonicalPair l r = true
  · simp [edge_handle, hc]
  · have hc' : canonicalPair l r = false := by simpa using hc
    simp only [edge_handle, hc', Bool.false_eq_true, if_false]
    by_cases hc2 : canonicalPair (flip r) (flip l) = true
    · simp [edge_handle, hc2]
    · have hc2' : canonicalPair (flip r) (flip l) = false := by simpa using hc2
      obtain ⟨ln, lr⟩ := l
      obtain ⟨rn, rr⟩ := r
      simp only [canonicalPair, flip] at hc' hc2'
      simp only [Bool.or_eq_false_iff, Bool.and_eq_false_iff,
        decide_eq_false_iff_not] at hc' hc2'
      have hnn : ln = rn := by omega
      subst hnn
      cases lr <;> cases rr <;> simp_all [edge_handle, canonicalPair, flip]

/-- Claim C10: every edge value for_each_edge passes to its iteratee is
a fixed point of the canonicalization function edge_handle (each
delivered pair is already in canonical form). -/
theorem c10_delivered_edges_are_canonical (g : graph_t) (e : edge_t)
    (he : e ∈ forEachEdgeList g) : edge_handle e.1 e.2 = e := by
  rw [forEachEdgeList_eq] at he
  rw [List.mem_flatten] at he
  obtain ⟨l, hl, hel⟩ := he
  rw [List.mem_map] at hl
  obtain ⟨h, _, rfl⟩ := hl
  unfold nodeEdgeList at hel
  rw [List.mem_append] at hel
  rcases hel with hmem | hmem
  · rw [List.mem_filterMap] at hmem
    obtain ⟨n, _, hsome⟩ := hmem
    by_cases hcond : h.nid ≤ n.nid
    · rw [if_pos hcond, Option.some_inj] at hsome
      rw [← hsome]
      exact edge_handle_idem h n
    · rw [if_neg hcond] at hsome
      exact absurd hsome (Option.noConfusion)
  · rw [List.mem_filterMap] at hmem
    obtain ⟨p, _, hsome⟩ := hmem
    by_cases hcond : h.nid < p.nid ∨ (h.nid = p.nid ∧ p.is_rev = false)
    · rw [if_pos hcond, Option.some_inj] at hsome
      rw [← hsome]
      exact edge_handle_idem p h
    · rw [if_neg hcond] at hsome
      exact absurd hsome (Option.noConfusion)

/-- Claim C10 witness: the edge delivered on the self-loop graph is a
fixed point of edge_handle. -/
theorem c10_delivered_edges_are_canonical_witness :
    ((⟨1, false⟩, ⟨1, false⟩) : edge_t) ∈ forEachEdgeList selfLoopGraph
    ∧ edge_handle (⟨1, false⟩ : handle_t) ⟨1, false⟩
        = ((⟨1, false⟩, ⟨1, false⟩) : edge_t) :=
  ⟨by decide,
    c10_delivered_edges_are_canonical selfLoopGraph
      (⟨1, false⟩, ⟨1, false⟩) (by decide)⟩

theorem filter_out_length (i : Nat) :
    ∀ (l : List node_t), (l.map node_t.nid).Nodup →
      l.any (fun x => x.nid == i) = true →
      (l.filter (fun x => !(x.nid == i))).length + 1 = l.length := by
  intro l
  induction l with
  | nil => intro _ hany; simp at hany
  | cons x rest ih =>
    intro hnodup hany
    rw [List.map_cons, List.nodup_cons] at hnodup
    by_cases hx : x.nid = i
    · have hrest : rest.filter (fun y => !(y.nid == i)) = rest := by
        apply List.filter_eq_self.mpr
        intro y hy
        have : y.nid ≠ i := by
          intro hcon
          exact hnodup.1 (by rw [hx, ← hcon]; exact List.mem_map_of_mem _ hy)
        simp [this]
      simp [List.filter_cons, hx, hrest]
    · have hany' : rest.any (fun y => y.nid == i) = true := by
        rcases List.any_eq_true.mp hany with ⟨y, hy, hbeq⟩
        rcases List.mem_cons.mp hy with rfl | hy'
        · exact absurd (beq_iff_eq.mp hbeq) hx
        · exact List.any_eq_true.mpr ⟨y, hy', hbeq⟩
      have hih := ih hnodup.2 hany'
      simp [List.filter_cons, hx]
      omega

/-- Claim C4: after destroy_handle on a live node with identifier id,
has_node returns false, following edges from any handle never yields a
handle with that id, and the node count decreases by exactly one. -/
theorem c4_destroy_handle (g : graph_t) (h : handle_t)
    (hlive : has_node g h.nid = true)
    (hnodup : (g.nodes.map node_t.nid).Nodup) :
    has_node (destroy_handle g h) h.nid = false
    ∧ (∀ (hh : handle_t) (gl : Bool) (n : handle_t),
        n ∈ followEdgesList (destroy_handle g h) hh gl → n.nid ≠ h.nid)
    ∧ node_size (destroy_handle g h) + 1 = node_size g := by
  refine ⟨?_, ?_, ?_⟩
  · rw [has_node, Bool.eq_false_iff]
    intro hany
    rcases List.any_eq_true.mp hany with ⟨y, hy, hbeq⟩
    rcases List.mem_map.mp hy with ⟨x, hx, rfl⟩
    rcases List.mem_filter.mp hx with ⟨_, hxne⟩
    simp only [Bool.not_eq_eq_eq_not, Bool.not_true, beq_eq_false_iff_ne] at hxne
    exact hxne (beq_iff_eq.mp hbeq)
  · intro hh gl n hn
    rw [followEdgesList] at hn
    cases hfind : (destroy_handle g h).nodes.find? (fun x => x.nid == hh.nid) with
    | none => rw [hfind] at hn; simp at hn
    | some nd =>
      rw [hfind] at hn
      have hmem : nd ∈ (destroy_handle g h).nodes := List.mem_of_find?_eq_some hfind
      rcases List.mem_map.mp hmem with ⟨x, _, rfl⟩
      have hfwd : ∀ e ∈ x.fwd_edges.filter (fun e => !(e.1 == h.nid)),
          e.1 ≠ h.nid := by
        intro e he
        have := (List.mem_filter.mp he).2
        simpa using this
      have hrev : ∀ e ∈ x.rev_edges.filter (fun e => !(e.1 == h.nid)),
          e.1 ≠ h.nid := by
        intro e he
        have := (List.mem_filter.mp he).2
        simpa using this
      cases hr : hh.is_rev <;> cases gl <;>
        simp only [hr] at hn <;>
        rcases List.mem_map.mp hn with ⟨e, he, rfl⟩ <;>
        first
        | exact hfwd e he
        | exact hrev e he
  · rw [node_size, node_size, destroy_handle, List.length_map]
    exact filter_out_length h.nid g.nodes hnodup hlive

/-- Claim C4 witness: destroying node 2 of the two node graph. -/
theorem c4_destroy_handle_witness :
    has_node twoNodeGraph (2 : Nat) = true
    ∧ (twoNodeGraph.nodes.map node_t.nid).Nodup
    ∧ has_node (destroy_handle twoNodeGraph ⟨2, false⟩) (2 : Nat) = false
    ∧ node_size (destroy_handle twoNodeGraph ⟨2, false⟩) + 1
        = node_size twoNodeGraph :=
  ⟨by decide, by decide,
    (c4_destroy_handle twoNodeGraph ⟨2, false⟩ (by decide) (by decide)).1,
    (c4_destroy_handle twoNodeGraph ⟨2, false⟩ (by decide) (by decide)).2.2⟩

/-- Claim C6: create_path_handle fails with InvalidName when the name is
empty or contains the delimiter byte, fails with DuplicatePath when a
path with that name already exists, and on success returns a handle to a
newly created empty path registered under that name. -/
theorem c6_create_path_handle (g : graph_t) (name : String) :
    (invalid_path_name name = true →
      create_path_handle g name = Except.error GraphError.InvalidName)
    ∧ (invalid_path_name name = false → has_path g name = true →
      create_path_handle g name = Except.error GraphError.DuplicatePath)
    ∧ (invalid_path_name name = false → has_path g name = false →
      create_path_handle g name
        = Except.ok (⟨g.nodes, g.paths ++ [⟨name, []⟩]⟩, g.paths.length)
      ∧ get_path_name ⟨g.nodes, g.paths ++ [⟨name, []⟩]⟩ g.paths.length = name
      ∧ path_is_empty ⟨g.nodes, g.paths ++ [⟨name, []⟩]⟩ g.paths.length = true
      ∧ has_path ⟨g.nodes, g.paths ++ [⟨name, []⟩]⟩ name = true) := by
  refine ⟨fun hinv => ?_, fun hinv hdup => ?_, fun hinv hdup => ?_⟩
  · simp [create_path_handle, hinv]
  · simp [create_path_handle, hinv, hdup]
  · refine ⟨by simp [create_path_handle, hinv, hdup], ?_, ?_, ?_⟩
    · rw [get_path_name]
      have : (g.paths ++ [(⟨name, []⟩ : path_t)])[g.paths.length]?
          = some ⟨name, []⟩ := List.getElem?_concat_length g.paths ⟨name, []⟩
      rw [this]
      rfl
    · rw [path_is_empty]
      have : (g.paths ++ [(⟨name, []⟩ : path_t)])[g.paths.length]?
          = some ⟨name, []⟩ := List.getElem?_concat_length g.paths ⟨name, []⟩
      rw [this]
      rfl
    · rw [has_path]
      apply List.any_eq_true.mpr
      exact ⟨⟨name, []⟩, by simp, by simp⟩

theorem splitSeqFrom_flatten (offs : List Nat) :
    ∀ (prev : Nat) (s : List Base), (splitSeqFrom prev offs s).flatten = s := by
  induction offs with
  | nil => intro prev s; simp [splitSeqFrom]
  | cons o rest ih =>
    intro prev s
    simp [splitSeqFrom, ih]

theorem splitSeq_flatten (offs : List Nat) (s : List Base) :
    (splitSeq offs s).flatten = s :=
  splitSeqFrom_flatten offs 0 s

theorem splitSeqFrom_length (offs : List Nat) :
    ∀ (prev : Nat) (s : List Base),
      (splitSeqFrom prev offs s).length = offs.length + 1 := by
  induction offs with
  | nil => intro prev s; simp [splitSeqFrom]
  | cons o rest ih =>
    intro prev s
    simp [splitSeqFrom, ih]

theorem splitSeq_length (offs : List Nat) (s : List Base) :
    (splitSeq offs s).length = offs.length + 1 :=
  splitSeqFrom_length offs 0 s

theorem maxNodeId_ge (g : graph_t) :
    ∀ nd ∈ g.nodes, nd.nid ≤ maxNodeId g := by
  rw [maxNodeId]
  induction g.nodes with
  | nil => intro nd h; simp at h
  | cons x rest ih =>
    intro nd hmem
    rcases List.mem_cons.mp hmem with rfl | hmem'
    · simp [List.foldr_cons, Nat.le_max_left]
    · exact Nat.le_trans (ih nd hmem') (by simp [List.foldr_cons, Nat.le_max_right])

theorem find?_append_of_none (p : node_t → Bool) (l2 : List node_t) :
    ∀ l1 : List node_t, (∀ x ∈ l1, p x = false) →
      (l1 ++ l2).find? p = l2.find? p := by
  intro l1
  induction l1 with
  | nil => intro _; rfl
  | cons x rest ih =>
    intro hall
    rw [List.cons_append, List.find?_cons,
      hall x (List.mem_cons_self x rest)]
    exact ih (fun y hy => hall y (List.mem_cons_of_mem x hy))

theorem flatten_reverse_map_revcomp :
    ∀ l : List (List Base),
      ((l.map reverse_complement).reverse).flatten = reverse_complement l.flatten := by
  intro l
  induction l with
  | nil => simp [reverse_complement]
  | cons a rest ih =>
    simp only [List.map_cons, List.reverse_cons, List.flatten_append,
      List.flatten_cons, List.flatten_nil, List.append_nil, ih, List.flatten]
    rw [reverse_complement_append]

theorem getSeq_mkNodes (paths : List path_t) :
    ∀ (ps : List (List Base)) (i0 : Nat) (pre : List node_t),
      (∀ x ∈ pre, x.nid < i0) →
      (List.range ps.length).map
          (fun i => get_sequence ⟨pre ++ mkNodes i0 ps, paths⟩ ⟨i0 + i, false⟩)
        = ps := by
  intro ps
  induction ps with
  | nil => intro i0 pre _; simp
  | cons p rest ih =>
    intro i0 pre hpre
    rw [List.length_cons, List.range_succ_eq_map, List.map_cons, List.map_map]
    have hhead : get_sequence ⟨pre ++ mkNodes i0 (p :: rest), paths⟩ ⟨i0 + 0, false⟩
        = p := by
      rw [get_sequence]
      have hpre' : ∀ x ∈ pre, (fun y : node_t => y.nid == (⟨i0 + 0, false⟩ : handle_t).nid) x = false := by
        intro x hx
        have := hpre x hx
        simp only [beq_eq_false_iff_ne]
        omega
      rw [show (⟨pre ++ mkNodes i0 (p :: rest), paths⟩ : graph_t).nodes
          = pre ++ mkNodes i0 (p :: rest) from rfl]
      rw [find?_append_of_none _ _ pre hpre']
      rw [mkNodes, List.find?_cons]
      have : ((⟨i0, p, [], []⟩ : node_t).nid == (⟨i0 + 0, false⟩ : handle_t).nid) = true := by
        simp
      rw [this]
      rfl
    have htail : (List.range rest.length).map
        ((fun i => get_sequence ⟨pre ++ mkNodes i0 (p :: rest), paths⟩
          ⟨i0 + i, false⟩) ∘ Nat.succ)
        = rest := by
      have hassoc : pre ++ mkNodes i0 (p :: rest)
          = (pre ++ [⟨i0, p, [], []⟩]) ++ mkNodes (i0 + 1) rest := by
        rw [mkNodes, List.append_assoc]
        rfl
      have hpre2 : ∀ x ∈ pre ++ [(⟨i0, p, [], []⟩ : node_t)], x.nid < i0 + 1 := by
        intro x hx
        rcases List.mem_append.mp hx with hx' | hx'
        · exact Nat.lt_trans (hpre x hx') (Nat.lt_succ_self i0)
        · rcases List.mem_singleton.mp hx' with rfl
          exact Nat.lt_succ_self i0
      calc (List.range rest.length).map
            ((fun i => get_sequence ⟨pre ++ mkNodes i0 (p :: rest), paths⟩
              ⟨i0 + i, false⟩) ∘ Nat.succ)
          = (List.range rest.length).map
            (fun i => get_sequence ⟨(pre ++ [⟨i0, p, [], []⟩]) ++ mkNodes (i0 + 1) rest, paths⟩
              ⟨(i0 + 1) + i, false⟩) := by
            apply List.map_congr_left
            intro i _
            rw [Function.comp_apply]
            rw [hassoc]
            have harith : i0 + Nat.succ i = (i0 + 1) + i := by omega
            rw [harith]
        _ = rest := ih (i0 + 1) (pre ++ [⟨i0, p, [], []⟩]) hpre2
    rw [hhead, htail]

/-- Claim C3: after divide_handle on a live node, the returned handles
enumerate the pieces in the order and orientation induced by the input
handle (their sequences concatenate to the input handle's oriented
sequence, and re-reading them in canonical forward orientation, in
original node order, reconstructs the node's original forward sequence);
the piece lengths sum to the original length; there are k+1 pieces for k
offsets; and every returned handle carries the input orientation. -/
theorem c3_divide_handle (g : graph_t) (h : handle_t) (offsets : List Nat)
    (nd : node_t) (g2 : graph_t) (ret : List handle_t)
    (hnd : g.nodes.find? (fun x => x.nid == h.nid) = some nd)
    (heq : divide_handle g h offsets = (g2, ret)) :
    ((if h.is_rev then ret.reverse else ret).map
        (fun x => get_sequence g2 (forward x))).flatten
      = get_sequence g (forward h)
    ∧ (ret.map (get_sequence g2)).flatten = get_sequence g h
    ∧ (ret.map (get_length g2)).sum = get_length g h
    ∧ ret.length = offsets.length + 1
    ∧ (∀ x ∈ ret, x.is_rev = h.is_rev) := by
  unfold divide_handle at heq
  rw [hnd] at heq
  dsimp only at heq
  injection heq with hg2 hret
  have hpre : ∀ x ∈ g.nodes.filter (fun x => !(x.nid == h.nid)),
      x.nid < maxNodeId g + 1 := by
    intro x hx
    have hxg : x ∈ g.nodes := (List.mem_filter.mp hx).1
    have := maxNodeId_ge g x hxg
    omega
  have hndfwd : g.nodes.find? (fun x => x.nid == (forward h).nid) = some nd := hnd
  have hcc : reverse_complement ∘ reverse_complement = id :=
    funext reverse_complement_reverse_complement
  cases hrev : h.is_rev with
  | false =>
    rw [hrev] at hg2 hret
    simp only [Bool.false_eq_true, if_false] at hg2 hret
    subst hg2
    subst hret
    rw [if_neg Bool.false_ne_true]
    set pre := g.nodes.filter (fun x => !(x.nid == h.nid)) with hpredef
    set P := splitSeq offsets nd.seq with hPdef
    set G2 : graph_t := ⟨pre ++ mkNodes (maxNodeId g + 1) P, g.paths⟩ with hG2def
    have hkey : (List.range P.length).map
        (fun i => get_sequence G2 ⟨maxNodeId g + 1 + i, false⟩) = P :=
      getSeq_mkNodes g.paths P (maxNodeId g + 1) pre hpre
    have hseqh : get_sequence g h = nd.seq := by
      rw [get_sequence, hnd, hrev]
      simp
    have hseqf : get_sequence g (forward h) = nd.seq := by
      rw [get_sequence, hndfwd]
      simp [forward]
    have hc2 : (((List.range P.length).map
          (fun i => handle_t.mk (maxNodeId g + 1 + i) false)).map
          (get_sequence G2)).flatten = get_sequence g h := by
      rw [List.map_map]
      rw [show (get_sequence G2 ∘ fun i => handle_t.mk (maxNodeId g + 1 + i) false)
          = (fun i => get_sequence G2 ⟨maxNodeId g + 1 + i, false⟩) from rfl]
      rw [hkey, hPdef, splitSeq_flatten, hseqh]
    refine ⟨?_, hc2, ?_, ?_, ?_⟩
    · rw [List.map_map]
      rw [show ((fun x => get_sequence G2 (forward x))
            ∘ fun i => handle_t.mk (maxNodeId g + 1 + i) false)
          = (fun i => get_sequence G2 ⟨maxNodeId g + 1 + i, false⟩) from rfl]
      rw [hkey, hPdef, splitSeq_flatten, hseqf]
    · have hlen : ∀ L : List handle_t,
          L.map (get_length G2) = (L.map (get_sequence G2)).map List.length := by
        intro L
        rw [List.map_map]
        rfl
      rw [hlen, ← List.length_flatten, hc2]
      rfl
    · rw [List.length_map, List.length_range, hPdef, splitSeq_length]
    · intro x hx
      rcases List.mem_map.mp hx with ⟨i, _, rfl⟩
      rfl
  | true =>
    rw [hrev] at hg2 hret
    simp only [if_true] at hg2 hret
    subst hg2
    subst hret
    rw [if_pos rfl]
    set pre := g.nodes.filter (fun x => !(x.nid == h.nid)) with hpredef
    set P := splitSeq offsets (reverse_complement nd.seq) with hPdef
    set FP := (P.map reverse_complement).reverse with hFPdef
    set G2 : graph_t := ⟨pre ++ mkNodes (maxNodeId g + 1) FP, g.paths⟩ with hG2def
    have hkey : (List.range FP.length).map
        (fun i => get_sequence G2 ⟨maxNodeId g + 1 + i, false⟩) = FP :=
      getSeq_mkNodes g.paths FP (maxNodeId g + 1) pre hpre
    have hseqh : get_sequence g h = reverse_complement nd.seq := by
      rw [get_sequence, hnd, hrev]
      simp
    have hseqf : get_sequence g (forward h) = nd.seq := by
      rw [get_sequence, hndfwd]
      simp [forward]
    have hkeyrev : (List.range FP.length).map
        (fun i => get_sequence G2 ⟨maxNodeId g + 1 + i, true⟩)
        = FP.map reverse_complement := by
      have hstep : ∀ i : Nat,
          get_sequence G2 ⟨maxNodeId g + 1 + i, true⟩
          = reverse_complement (get_sequence G2 ⟨maxNodeId g + 1 + i, false⟩) :=
        fun i => get_sequence_flip G2 ⟨maxNodeId g + 1 + i, false⟩
      calc (List.range FP.length).map
            (fun i => get_sequence G2 ⟨maxNodeId g + 1 + i, true⟩)
          = (List.range FP.length).map
            (fun i => reverse_complement
              (get_sequence G2 ⟨maxNodeId g + 1 + i, false⟩)) :=
            List.map_congr_left (fun i _ => hstep i)
        _ = ((List.range FP.length).map
            (fun i => get_sequence G2 ⟨maxNodeId g + 1 + i, false⟩)).map
              reverse_complement := by rw [List.map_map]; rfl
        _ = FP.map reverse_complement := by rw [hkey]
    have hc2 : ((((List.range FP.length).map
          (fun i => handle_t.mk (maxNodeId g + 1 + i) false)).reverse.map
            flip).map (get_sequence G2)).flatten = get_sequence g h := by
      rw [List.map_map, List.map_reverse, List.map_map]
      rw [show ((get_sequence G2 ∘ flip)
            ∘ fun i => handle_t.mk (maxNodeId g + 1 + i) false)
          = (fun i => get_sequence G2 ⟨maxNodeId g + 1 + i, true⟩) from rfl]
      rw [hkeyrev, hFPdef, List.map_reverse, List.reverse_reverse,
        List.map_map, hcc, List.map_id, hPdef, splitSeq_flatten, hseqh]
    refine ⟨?_, hc2, ?_, ?_, ?_⟩
    · have hrr : (((List.range FP.length).map
          (fun i => handle_t.mk (maxNodeId g + 1 + i) false)).reverse.map
            flip).reverse
          = ((List.range FP.length).map
            (fun i => handle_t.mk (maxNodeId g + 1 + i) false)).map flip := by
        rw [List.map_reverse, List.reverse_reverse]
      rw [hrr, List.map_map, List.map_map]
      rw [show (((fun x => get_sequence G2 (forward x)) ∘ flip)
            ∘ fun i => handle_t.mk (maxNodeId g + 1 + i) false)
          = (fun i => get_sequence G2 ⟨maxNodeId g + 1 + i, false⟩) from rfl]
      rw [hkey, hFPdef, flatten_reverse_map_revcomp, hPdef, splitSeq_flatten,
        reverse_complement_reverse_complement, hseqf]
    · have hlen : ∀ L : List handle_t,
          L.map (get_length G2) = (L.map (get_sequence G2)).map List.length := by
        intro L
        rw [List.map_map]
        rfl
      rw [hlen, ← List.length_flatten, hc2]
      rfl
    · rw [List.length_map, List.length_reverse, List.length_map,
        List.length_range, hFPdef, List.length_reverse, List.length_map,
        hPdef, splitSeq_length]
    · intro x hx
      rcases List.mem_map.mp hx with ⟨y, hy, rfl⟩
      rcases List.mem_map.mp (List.mem_reverse.mp hy) with ⟨i, _, rfl⟩
      rfl

/-- Claim C3 witness: dividing the GATTACA node (forward handle) at
offsets 3 and 5 gives pieces whose sequences flatten back to GATTACA and
whose count is three. -/
theorem c3_divide_handle_witness :
    (gattacaGraph.nodes.find?
        (fun x => x.nid == (⟨1, false⟩ : handle_t).nid)
      = some ⟨1, [Base.G, Base.A, Base.T, Base.T, Base.A, Base.C, Base.A], [], []⟩)
    ∧ (((divide_handle gattacaGraph ⟨1, false⟩ [3, 5]).2).map
        (get_sequence (divide_handle gattacaGraph ⟨1, false⟩ [3, 5]).1)).flatten
      = get_sequence gattacaGraph ⟨1, false⟩
    ∧ ((divide_handle gattacaGraph ⟨1, false⟩ [3, 5]).2).length = 3 :=
  ⟨rfl,
    (c3_divide_handle gattacaGraph ⟨1, false⟩ [3, 5]
      ⟨1, [Base.G, Base.A, Base.T, Base.T, Base.A, Base.C, Base.A], [], []⟩
      (divide_handle gattacaGraph ⟨1, false⟩ [3, 5]).1
      (divide_handle gattacaGraph ⟨1, false⟩ [3, 5]).2 rfl rfl).2.1,
    (c3_divide_handle gattacaGraph ⟨1, false⟩ [3, 5]
      ⟨1, [Base.G, Base.A, Base.T, Base.T, Base.A, Base.C, Base.A], [], []⟩
      (divide_handle gattacaGraph ⟨1, false⟩ [3, 5]).1
      (divide_handle gattacaGraph ⟨1, false⟩ [3, 5]).2 rfl rfl).2.2.2.1⟩

/-- Claim C6 witness: creating path "x" on the empty graph succeeds with
an empty path of that name. -/
theorem c6_create_path_handle_witness :
    invalid_path_name "x" = false
    ∧ has_path ⟨[], []⟩ "x" = false
    ∧ (create_path_handle ⟨[], []⟩ "x"
        = Except.ok (⟨[], [⟨"x", []⟩]⟩, 0)
      ∧ get_path_name ⟨[], [⟨"x", []⟩]⟩ 0 = "x"
      ∧ path_is_empty ⟨[], [⟨"x", []⟩]⟩ 0 = true
      ∧ has_path ⟨[], [⟨"x", []⟩]⟩ "x" = true) :=
  ⟨by decide, by decide,
    (c6_create_path_handle ⟨[], []⟩ "x").2.2 (by decide) (by decide)⟩

end dankgraph
